import Mathlib

/-!
Verification of the meadow-ai metadata-agent core: a shallow embedding of the
three tool handlers (`call_graphql_endpoint_tool`, `generate_keywords_tool`,
`generate_description_tool` from `tools.py`), the two response-aggregator
variants and the query facades (`execute.py` / `query.py`), together with
theorems settling the behavioural claims about them.

Python strings are modelled as `List Char` (ASCII-faithful: Python's
`str.lower` and the regex class `\w` are modelled on the ASCII range, which is
the range the program's fixed templates and the claims exercise).  Python
integers are `Int`.  Python dictionaries that matter only through key lookup
and insertion order are modelled as association lists.
-/

set_option linter.unusedVariables false

open List

/-- Python strings, modelled as character lists. -/
abbrev Str : Type := List Char

/-- Python slice `s[:k]` for an arbitrary integer bound `k`: a nonnegative
bound keeps the first `k` elements, a negative bound drops `-k` elements from
the end (clamped at the list boundaries). -/
def pySlice {α : Type} (s : List α) (k : Int) : List α :=
  s.take (if 0 ≤ k then k.toNat else ((s.length : Int) + k).toNat)

/-- Python truthiness of an optional string (`None` and `""` are falsy). -/
def strTruthy : Option Str → Bool
  | none => false
  | some s => !s.isEmpty

/-- Python `x or y` on optional strings: `y` when `x` is `None` or empty. -/
def pyOr (x y : Option Str) : Option Str :=
  if strTruthy x then x else y

/-- Python `str.lower` on one character (ASCII model): characters `A`-`Z`
(code points 65-90) are shifted to `a`-`z`, everything else is unchanged. -/
def pyToLower (c : Char) : Char :=
  if h : 65 ≤ c.toNat ∧ c.toNat ≤ 90 then
    Char.ofNatAux (c.toNat + 32) (Or.inl (by omega))
  else c

/-- Python `str.lower` on a string. -/
def lowerStr (s : Str) : Str := s.map pyToLower

/-- A content block of a tool result: `{"type": "text", "text": ...}`. -/
structure ContentBlock where
  type : Str
  text : Str
deriving DecidableEq

/-- The text block constructor used by every tool handler. -/
def textBlock (t : Str) : ContentBlock := ⟨"text".data, t⟩

/-- A tool result is the `"content"` list of the returned payload. -/
abbrev ToolResult : Type := List ContentBlock

/-! ## `generate_description_tool` (tools.py lines 66-89) -/

/-- The untruncated template built by `generate_description_tool`:
`"Analysis of content"`, then `" in context of <context>"` when `context` is
truthy, then `": <content[:100]>..."`. -/
def descriptionTemplate (content context : Str) : Str :=
  "Analysis of content".data
    ++ (if context.isEmpty then [] else " in context of ".data ++ context)
    ++ (": ".data ++ pySlice content 100 ++ "...".data)

/-- The description string produced by `generate_description_tool`: the
template, truncated via `description[:max_length-3] + "..."` whenever its
length exceeds `max_length`. -/
def generate_description (content context : Str) (max_length : Int) : Str :=
  let description := descriptionTemplate content context
  if (description.length : Int) > max_length then
    pySlice description (max_length - 3) ++ "...".data
  else description

/-- Arguments of `generate_description_tool`; absent keys fall back to the
`args.get` defaults (`""`, `""`, `400`). -/
structure DescriptionArgs where
  content : Option Str := none
  context : Option Str := none
  max_length : Option Int := none

/-- `generate_description_tool`: wraps the description string in a single
text content block. -/
def generate_description_tool (args : DescriptionArgs) : ToolResult :=
  [textBlock (generate_description (args.content.getD []) (args.context.getD [])
    (args.max_length.getD 400))]

/-! ### Helper lemmas for the description claims -/

theorem descriptionTemplate_ends_dots (content context : Str) :
    List.IsSuffix "...".data (descriptionTemplate content context) := by
  refine ⟨"Analysis of content".data
    ++ (if context.isEmpty then [] else " in context of ".data ++ context)
    ++ (": ".data ++ pySlice content 100), ?_⟩
  simp [descriptionTemplate, List.append_assoc]

theorem length_pySlice_of_nonneg {α : Type} (s : List α) (k : Int) (h : 0 ≤ k) :
    (pySlice s k).length = min k.toNat s.length := by
  simp [pySlice, if_pos h, List.length_take]

/-- C1 helper: exact shape of the truncated branch. -/
theorem generate_description_truncated (content context : Str) (max_length : Int)
    (h : ((descriptionTemplate content context).length : Int) > max_length) :
    generate_description content context max_length
      = pySlice (descriptionTemplate content context) (max_length - 3) ++ "...".data := by
  simp only [generate_description]
  rw [if_pos h]

theorem generate_description_untruncated (content context : Str) (max_length : Int)
    (h : ¬ ((descriptionTemplate content context).length : Int) > max_length) :
    generate_description content context max_length = descriptionTemplate content context := by
  simp only [generate_description]
  rw [if_neg h]

/-! ### C1 and C10 -/

/-- C1 (counterexample): with `content = ""`, `context = ""` and
`max_length = 0` the returned description has length 24, which exceeds
`max_length`; the claim's length bound fails for arbitrary integers
`max_length` because the Python slice `description[:max_length-3]` wraps
around for `max_length < 3`. -/
theorem c1_counterexample :
    ¬ (((generate_description [] [] 0).length : Int) ≤ 0) := by decide

/-- C1 (amended): for every content string, context string, and integer
`max_length ≥ 3`, the text returned by `generate_description` has length at
most `max_length`, and when the untruncated template exceeds `max_length` the
returned text is the template cut to `max_length - 3` characters with `"..."`
appended (its final 3 characters replaced), so it ends in `"..."`. -/
theorem c1_description_length (content context : Str) (max_length : Int)
    (h : 3 ≤ max_length) :
    ((generate_description content context max_length).length : Int) ≤ max_length ∧
    (((descriptionTemplate content context).length : Int) > max_length →
      generate_description content context max_length
        = pySlice (descriptionTemplate content context) (max_length - 3) ++ "...".data ∧
      List.IsSuffix "...".data (generate_description content context max_length)) := by
  by_cases htr : ((descriptionTemplate content context).length : Int) > max_length
  · have heq := generate_description_truncated content context max_length htr
    constructor
    · rw [heq]
      rw [List.length_append,
        length_pySlice_of_nonneg (descriptionTemplate content context) (max_length - 3)
          (by omega)]
      have : "...".data.length = 3 := by decide
      rw [this]
      omega
    · intro _
      exact ⟨heq, ⟨pySlice (descriptionTemplate content context) (max_length - 3), by rw [heq]⟩⟩
  · rw [generate_description_untruncated content context max_length htr]
    exact ⟨by omega, fun hc => absurd hc htr⟩

/-- C1 (witness): a concrete truncating call with `max_length = 10`. -/
theorem c1_description_length_witness :
    ((generate_description "hello world hello world".data [] 10).length : Int) ≤ 10 ∧
    (((descriptionTemplate "hello world hello world".data []).length : Int) > 10 →
      generate_description "hello world hello world".data [] 10
        = pySlice (descriptionTemplate "hello world hello world".data []) (10 - 3)
            ++ "...".data ∧
      List.IsSuffix "...".data (generate_description "hello world hello world".data [] 10)) :=
  c1_description_length "hello world hello world".data [] 10 (by decide)

/-- C10: for every content string, context string and integer `max_length`,
the text returned by `generate_description` ends with the suffix `"..."`,
whether or not truncation occurred: the untruncated template itself ends in
`"..."`, and the truncated branch appends `"..."`. -/
theorem c10_description_ends_dots (content context : Str) (max_length : Int) :
    List.IsSuffix "...".data (generate_description content context max_length) := by
  by_cases htr : ((descriptionTemplate content context).length : Int) > max_length
  · rw [generate_description_truncated content context max_length htr]
    exact ⟨pySlice (descriptionTemplate content context) (max_length - 3), rfl⟩
  · rw [generate_description_untruncated content context max_length htr]
    exact descriptionTemplate_ends_dots content context

/-! ## `generate_keywords_tool` (tools.py lines 37-64) -/

/-- Characters matched by the regex class in the word pattern used by
`generate_keywords_tool` (ASCII model of the regex word class):
letters, digits and underscore. -/
def isWordChar (c : Char) : Bool := c.isAlphanum || c = '_'

/-- Worker for the word tokenizer: scans the string keeping the current run
of word characters in `cur`; a non-word character (or the end of the string)
emits the run.  The emitted tokens are exactly the maximal word-character
runs, which is what the word-boundary regex findall returns. -/
def tokenizeAux : Str → Str → List Str
  | [], cur => if cur.isEmpty then [] else [cur]
  | c :: rest, cur =>
    if isWordChar c then tokenizeAux rest (cur ++ [c])
    else if cur.isEmpty then tokenizeAux rest [] else cur :: tokenizeAux rest []

/-- The word tokenizer: all maximal word-character runs of `s`. -/
def findallWords (s : Str) : List Str := tokenizeAux s []

/-- One step of the dictionary update `word_freq[word] = word_freq.get(word, 0) + 1`
on the insertion-ordered association list that models the Python dict. -/
def bump : List (Str × Nat) → Str → List (Str × Nat)
  | [], w => [(w, 1)]
  | (k, v) :: rest, w => if k = w then (k, v + 1) :: rest else (k, v) :: bump rest w

/-- The token streams of `content.lower()` and `context.lower()` concatenated
(`context` contributes nothing when falsy). -/
def allWords (content context : Str) : List Str :=
  findallWords (lowerStr content)
    ++ (if context.isEmpty then [] else findallWords (lowerStr context))

/-- The `word_freq` dictionary: every token of length > 3 is counted, keys in
first-occurrence order (Python dict insertion order). -/
def wordFreq (ws : List Str) : List (Str × Nat) :=
  ws.foldl (fun m w => if 3 < w.length then bump m w else m) []

/-- Dictionary lookup `word_freq[x]` (the sort key). -/
def freqOf : List (Str × Nat) → Str → Nat
  | [], _ => 0
  | (k, v) :: rest, w => if k = w then v else freqOf rest w

/-- Insertion step of the stable descending sort: `x` is placed before the
first element whose key is not larger than the key of `x`. -/
def insertByFreqDesc (f : Str → Nat) (x : Str) : List Str → List Str
  | [] => [x]
  | y :: ys => if f y ≤ f x then x :: y :: ys else y :: insertByFreqDesc f x ys

/-- Stable descending sort by the key `f`, the model of Python's
`sorted(keys, key=lambda x: word_freq[x], reverse=True)` (Python's sort is
stable; a stable descending sort is extensionally unique, and this insertion
sort realizes it). -/
def sortByFreqDesc (f : Str → Nat) (l : List Str) : List Str :=
  l.foldr (insertByFreqDesc f) []

/-- The keyword list produced by `generate_keywords_tool`: the keys of
`word_freq` sorted by descending frequency (stable) and cut to
`max_keywords` by the Python slice `[:max_keywords]`. -/
def keywordList (content context : Str) (max_keywords : Int) : List Str :=
  let m := wordFreq (allWords content context)
  pySlice (sortByFreqDesc (freqOf m) (m.map Prod.fst)) max_keywords

/-- Arguments of `generate_keywords_tool`; absent keys fall back to the
`args.get` defaults (`""`, `""`, `10`). -/
structure KeywordsArgs where
  content : Option Str := none
  context : Option Str := none
  max_keywords : Option Int := none

/-- `generate_keywords_tool`: the keyword list joined with `", "` in a single
text content block. -/
def generate_keywords_tool (args : KeywordsArgs) : ToolResult :=
  [textBlock (List.intercalate ", ".data
    (keywordList (args.content.getD []) (args.context.getD [])
      (args.max_keywords.getD 10)))]

/-! ### Helper lemmas for the keyword claims -/

theorem toNat_pyToLower_upper (c : Char) (h : 65 ≤ c.toNat ∧ c.toNat ≤ 90) :
    (pyToLower c).toNat = c.toNat + 32 := by
  simp only [pyToLower, Char.toNat] at *
  rw [dif_pos h]
  simp [Char.ofNatAux, UInt32.toNat, BitVec.toNat_ofNatLt]

theorem pyToLower_eq_self (c : Char) (h : ¬ (65 ≤ c.toNat ∧ c.toNat ≤ 90)) :
    pyToLower c = c := by
  simp only [pyToLower]
  rw [dif_neg h]

/-- The result of `pyToLower` is never an ASCII uppercase letter. -/
theorem pyToLower_not_upper (c : Char) :
    ¬ (65 ≤ (pyToLower c).toNat ∧ (pyToLower c).toNat ≤ 90) := by
  by_cases h : 65 ≤ c.toNat ∧ c.toNat ≤ 90
  · rw [toNat_pyToLower_upper c h]; omega
  · rw [pyToLower_eq_self c h]; exact h

/-- Lowering is idempotent, so every character of a lowered string is fixed
by lowering: the formal sense in which a string is lowercase. -/
theorem pyToLower_idem (c : Char) : pyToLower (pyToLower c) = pyToLower c :=
  pyToLower_eq_self (pyToLower c) (pyToLower_not_upper c)

theorem mem_lowerStr_fixed (s : Str) (c : Char) (hc : c ∈ lowerStr s) :
    pyToLower c = c := by
  simp only [lowerStr, List.mem_map] at hc
  obtain ⟨c', _, rfl⟩ := hc
  exact pyToLower_idem c'

/-- Every character of every token emitted by the tokenizer comes from the
input string or from the pending run. -/
theorem tokenizeAux_chars (P : Char → Prop) :
    ∀ (s cur : Str), (∀ c ∈ s, P c) → (∀ c ∈ cur, P c) →
      ∀ t ∈ tokenizeAux s cur, ∀ c ∈ t, P c := by
  intro s
  induction s with
  | nil =>
    intro cur _ hcur t ht
    simp only [tokenizeAux] at ht
    by_cases hc : cur.isEmpty
    · rw [if_pos hc] at ht; simp at ht
    · rw [if_neg hc] at ht
      simp only [List.mem_singleton] at ht
      subst ht; exact hcur
  | cons a s ih =>
    intro cur hs hcur t ht
    have hs' : ∀ c ∈ s, P c := fun c hc => hs c (List.mem_cons_of_mem a hc)
    have ha : P a := hs a (List.mem_cons_self a s)
    simp only [tokenizeAux] at ht
    by_cases hw : isWordChar a
    · rw [if_pos hw] at ht
      refine ih (cur ++ [a]) hs' ?_ t ht
      intro c hc
      rcases List.mem_append.mp hc with h | h
      · exact hcur c h
      · simp only [List.mem_singleton] at h; subst h; exact ha
    · rw [if_neg hw] at ht
      by_cases hc : cur.isEmpty
      · rw [if_pos hc] at ht
        exact ih [] hs' (by simp) t ht
      · rw [if_neg hc] at ht
        rcases List.mem_cons.mp ht with h | h
        · subst h; exact hcur
        · exact ih [] hs' (by simp) t h

theorem findallWords_chars (P : Char → Prop) (s : Str) (hs : ∀ c ∈ s, P c) :
    ∀ t ∈ findallWords s, ∀ c ∈ t, P c :=
  tokenizeAux_chars P s [] hs (by simp)

/-- Every token of the combined stream is made of lowered characters. -/
theorem allWords_chars_lower (content context : Str) :
    ∀ t ∈ allWords content context, ∀ c ∈ t, pyToLower c = c := by
  intro t ht
  simp only [allWords] at ht
  rcases List.mem_append.mp ht with h | h
  · exact findallWords_chars _ (lowerStr content) (mem_lowerStr_fixed content) t h
  · by_cases hc : context.isEmpty
    · rw [if_pos hc] at h; simp at h
    · rw [if_neg hc] at h
      exact findallWords_chars _ (lowerStr context) (mem_lowerStr_fixed context) t h

/-- The keys of `bump m w` are the keys of `m`, with `w` appended when it is
new (Python dict update semantics). -/
theorem bump_keys (m : List (Str × Nat)) (w : Str) :
    (bump m w).map Prod.fst
      = if w ∈ m.map Prod.fst then m.map Prod.fst else m.map Prod.fst ++ [w] := by
  induction m with
  | nil => simp [bump]
  | cons p rest ih =>
    obtain ⟨k, v⟩ := p
    by_cases hk : k = w
    · subst hk
      simp [bump]
    · simp only [bump, if_neg hk, List.map_cons]
      rw [ih]
      by_cases hw : w ∈ rest.map Prod.fst
      · rw [if_pos hw, if_pos (by simpa using Or.inr hw)]
      · rw [if_neg hw, if_neg (by simp [hw, Ne.symm hk]), List.cons_append]

theorem bump_keys_nodup (m : List (Str × Nat)) (w : Str)
    (h : (m.map Prod.fst).Nodup) : ((bump m w).map Prod.fst).Nodup := by
  rw [bump_keys]
  by_cases hw : w ∈ m.map Prod.fst
  · rwa [if_pos hw]
  · rw [if_neg hw]
    simp [List.nodup_append, h, hw]

theorem mem_bump_keys (m : List (Str × Nat)) (w k : Str)
    (h : k ∈ (bump m w).map Prod.fst) : k ∈ m.map Prod.fst ∨ k = w := by
  rw [bump_keys] at h
  by_cases hw : w ∈ m.map Prod.fst
  · rw [if_pos hw] at h; exact Or.inl h
  · rw [if_neg hw] at h
    rcases List.mem_append.mp h with h | h
    · exact Or.inl h
    · simp only [List.mem_singleton] at h; exact Or.inr h

/-- Invariant of the frequency-counting fold: every key either was already
present or is a counted token (a stream element of length > 3). -/
theorem foldl_bump_keys (ws : List Str) :
    ∀ (m : List (Str × Nat)) (k : Str),
      k ∈ ((ws.foldl (fun m w => if 3 < w.length then bump m w else m) m).map Prod.fst) →
      k ∈ m.map Prod.fst ∨ (k ∈ ws ∧ 3 < k.length) := by
  induction ws with
  | nil => intro m k h; exact Or.inl h
  | cons w ws ih =>
    intro m k h
    simp only [List.foldl_cons] at h
    rcases ih _ k h with h' | h'
    · by_cases hw : 3 < w.length
      · rw [if_pos hw] at h'
        rcases mem_bump_keys m w k h' with h'' | h''
        · exact Or.inl h''
        · subst h''; exact Or.inr ⟨by simp, hw⟩
      · rw [if_neg hw] at h'; exact Or.inl h'
    · exact Or.inr ⟨List.mem_cons_of_mem w h'.1, h'.2⟩

theorem foldl_bump_nodup (ws : List Str) :
    ∀ (m : List (Str × Nat)), (m.map Prod.fst).Nodup →
      ((ws.foldl (fun m w => if 3 < w.length then bump m w else m) m).map Prod.fst).Nodup := by
  induction ws with
  | nil => intro m h; exact h
  | cons w ws ih =>
    intro m h
    simp only [List.foldl_cons]
    refine ih _ ?_
    by_cases hw : 3 < w.length
    · rw [if_pos hw]; exact bump_keys_nodup m w h
    · rwa [if_neg hw]

theorem wordFreq_keys (ws : List Str) (k : Str) (h : k ∈ (wordFreq ws).map Prod.fst) :
    k ∈ ws ∧ 3 < k.length := by
  rcases foldl_bump_keys ws [] k h with h' | h'
  · simp at h'
  · exact h'

theorem wordFreq_keys_nodup (ws : List Str) : ((wordFreq ws).map Prod.fst).Nodup :=
  foldl_bump_nodup ws [] (by simp)

theorem insertByFreqDesc_perm (f : Str → Nat) (x : Str) (l : List Str) :
    List.Perm (insertByFreqDesc f x l) (x :: l) := by
  induction l with
  | nil => simp [insertByFreqDesc]
  | cons y ys ih =>
    simp only [insertByFreqDesc]
    by_cases h : f y ≤ f x
    · rw [if_pos h]
    · rw [if_neg h]
      exact ((ih.cons y).trans (List.Perm.swap x y ys))

theorem sortByFreqDesc_perm (f : Str → Nat) (l : List Str) :
    List.Perm (sortByFreqDesc f l) l := by
  induction l with
  | nil => simp [sortByFreqDesc]
  | cons z rest ih =>
    simp only [sortByFreqDesc, List.foldr_cons]
    exact (insertByFreqDesc_perm f z _).trans (ih.cons z)

theorem mem_insertByFreqDesc (f : Str → Nat) (x z : Str) (l : List Str)
    (h : z ∈ insertByFreqDesc f x l) : z = x ∨ z ∈ l := by
  have := (insertByFreqDesc_perm f x l).mem_iff.mp h
  simpa using this

theorem insertByFreqDesc_sorted (f : Str → Nat) (x : Str) (l : List Str)
    (h : l.Pairwise (fun a b => f b ≤ f a)) :
    (insertByFreqDesc f x l).Pairwise (fun a b => f b ≤ f a) := by
  induction l with
  | nil => simp [insertByFreqDesc]
  | cons y ys ih =>
    simp only [insertByFreqDesc]
    by_cases hy : f y ≤ f x
    · rw [if_pos hy]
      refine List.Pairwise.cons ?_ h
      intro z hz
      rcases List.mem_cons.mp hz with h' | h'
      · subst h'; exact hy
      · exact le_trans ((List.pairwise_cons.mp h).1 z h') hy
    · rw [if_neg hy]
      have hys := (List.pairwise_cons.mp h).2
      refine List.Pairwise.cons ?_ (ih hys)
      intro z hz
      rcases mem_insertByFreqDesc f x z ys hz with h' | h'
      · subst h'; omega
      · exact (List.pairwise_cons.mp h).1 z h'

theorem sortByFreqDesc_sorted (f : Str → Nat) (l : List Str) :
    (sortByFreqDesc f l).Pairwise (fun a b => f b ≤ f a) := by
  induction l with
  | nil => simp [sortByFreqDesc]
  | cons z rest ih =>
    simp only [sortByFreqDesc, List.foldr_cons]
    exact insertByFreqDesc_sorted f z _ ih

theorem sublist_insertByFreqDesc (f : Str → Nat) (x : Str) (l : List Str) :
    List.Sublist l (insertByFreqDesc f x l) := by
  induction l with
  | nil => simp [insertByFreqDesc]
  | cons y ys ih =>
    simp only [insertByFreqDesc]
    by_cases h : f y ≤ f x
    · rw [if_pos h]
      exact List.Sublist.cons x (List.Sublist.refl _)
    · rw [if_neg h]
      exact List.Sublist.cons₂ y ih

/-- When an element with key not above the key of `x` is already present,
inserting `x` places it strictly before that element. -/
theorem pair_sublist_insertByFreqDesc (f : Str → Nat) (x y : Str) (l : List Str)
    (hy : y ∈ l) (hf : f y ≤ f x) :
    List.Sublist [x, y] (insertByFreqDesc f x l) := by
  induction l with
  | nil => simp at hy
  | cons w ws ih =>
    simp only [insertByFreqDesc]
    by_cases h : f w ≤ f x
    · rw [if_pos h]
      exact List.Sublist.cons₂ x (List.singleton_sublist.mpr hy)
    · rw [if_neg h]
      have hyw : y ≠ w := by
        intro he; subst he; omega
      have hy' : y ∈ ws := by
        rcases List.mem_cons.mp hy with h' | h'
        · exact absurd h' hyw
        · exact h'
      exact List.Sublist.cons w (ih hy')

/-- Stability of the sort: two elements with equal keys keep their relative
order (the tie-breaking policy of Python's stable sort). -/
theorem sortByFreqDesc_stable (f : Str → Nat) (x y : Str) :
    ∀ (l : List Str), List.Sublist [x, y] l → f x = f y →
      List.Sublist [x, y] (sortByFreqDesc f l) := by
  intro l
  induction l with
  | nil => intro h _; simp at h
  | cons z rest ih =>
    intro h hf
    simp only [sortByFreqDesc, List.foldr_cons]
    cases h with
    | cons _ h' =>
        exact (ih h' hf).trans (sublist_insertByFreqDesc f z _)
    | cons₂ _ h' =>
        have hy : y ∈ sortByFreqDesc f rest :=
          (sortByFreqDesc_perm f rest).mem_iff.mpr (List.singleton_sublist.mp h')
        exact pair_sublist_insertByFreqDesc f x y (sortByFreqDesc f rest) hy (le_of_eq hf.symm)

theorem not_pair_sublist_self (x : Str) :
    ∀ l : List Str, l.Nodup → ¬ List.Sublist [x, x] l := by
  intro l
  induction l with
  | nil => intro _ h; simp at h
  | cons c t ih =>
    intro hnd h
    cases h with
    | cons _ h' => exact ih (List.Nodup.of_cons hnd) h'
    | cons₂ _ h' =>
      exact absurd (h'.subset (by simp)) (List.nodup_cons.mp hnd).1

theorem pair_sublist_ne (x y : Str) (l : List Str) (hnd : l.Nodup)
    (h : List.Sublist [x, y] l) : x ≠ y := by
  intro he; subst he
  exact not_pair_sublist_self x l hnd h

theorem pair_sublist_antisymm (x y : Str) :
    ∀ l : List Str, l.Nodup → List.Sublist [x, y] l → List.Sublist [y, x] l → x = y := by
  intro l
  induction l with
  | nil => intro _ h _; simp at h
  | cons c t ih =>
    intro hnd h1 h2
    cases h1 with
    | cons _ h1' =>
      cases h2 with
      | cons _ h2' => exact ih (List.Nodup.of_cons hnd) h1' h2'
      | cons₂ _ h2' =>
        exact absurd (h1'.subset (by simp)) (List.nodup_cons.mp hnd).1
    | cons₂ _ h1' =>
      cases h2 with
      | cons _ h2' =>
        exact absurd (h2'.subset (by simp)) (List.nodup_cons.mp hnd).1
      | cons₂ _ h2' => rfl

theorem pair_sublist_of_mem (x y : Str) :
    ∀ l : List Str, x ∈ l → y ∈ l → x ≠ y →
      List.Sublist [x, y] l ∨ List.Sublist [y, x] l := by
  intro l
  induction l with
  | nil => intro h; simp at h
  | cons c t ih =>
    intro hx hy hne
    by_cases hcx : c = x
    · subst hcx
      have hy' : y ∈ t := by
        rcases List.mem_cons.mp hy with h | h
        · exact absurd h.symm hne
        · exact h
      exact Or.inl (List.Sublist.cons₂ _ (List.singleton_sublist.mpr hy'))
    · by_cases hcy : c = y
      · subst hcy
        have hx' : x ∈ t := by
          rcases List.mem_cons.mp hx with h | h
          · exact absurd h (fun he => hcx he.symm)
          · exact h
        exact Or.inr (List.Sublist.cons₂ _ (List.singleton_sublist.mpr hx'))
      · have hx' : x ∈ t := by
          rcases List.mem_cons.mp hx with h | h
          · exact absurd h (fun he => hcx he.symm)
          · exact h
        have hy' : y ∈ t := by
          rcases List.mem_cons.mp hy with h | h
          · exact absurd h (fun he => hcy he.symm)
          · exact h
        rcases ih hx' hy' hne with h | h
        · exact Or.inl (List.Sublist.cons c h)
        · exact Or.inr (List.Sublist.cons c h)

/-! ### C2 and C6 -/

/-- C2: for every content string, context string and nonnegative integer
`max_keywords`, the keyword list produced by `generate_keywords_tool` (the
comma-joined tokens of its single text block) has at most `max_keywords`
entries, every entry has length > 3, every entry is lowercase (each of its
characters is fixed by lowering), and no entry appears twice. -/
theorem c2_keywords_wellformed (content context : Str) (max_keywords : Int)
    (h : 0 ≤ max_keywords) :
    ((keywordList content context max_keywords).length : Int) ≤ max_keywords ∧
    (∀ t ∈ keywordList content context max_keywords, 3 < t.length) ∧
    (∀ t ∈ keywordList content context max_keywords, ∀ c ∈ t, pyToLower c = c) ∧
    (keywordList content context max_keywords).Nodup := by
  have hmem : ∀ t ∈ keywordList content context max_keywords,
      t ∈ allWords content context ∧ 3 < t.length := by
    intro t ht
    have h1 : t ∈ sortByFreqDesc (freqOf (wordFreq (allWords content context)))
        ((wordFreq (allWords content context)).map Prod.fst) := by
      simp only [keywordList, pySlice] at ht
      exact (List.take_sublist _ _).subset ht
    exact wordFreq_keys _ t ((sortByFreqDesc_perm _ _).mem_iff.mp h1)
  refine ⟨?_, fun t ht => (hmem t ht).2,
    fun t ht => allWords_chars_lower content context t (hmem t ht).1, ?_⟩
  · simp only [keywordList]
    rw [length_pySlice_of_nonneg _ _ h]
    omega
  · have hnd : (sortByFreqDesc (freqOf (wordFreq (allWords content context)))
        ((wordFreq (allWords content context)).map Prod.fst)).Nodup :=
      (sortByFreqDesc_perm _ _).symm.nodup (wordFreq_keys_nodup _)
    simp only [keywordList, pySlice]
    exact hnd.sublist (List.take_sublist _ _)

/-- C2 (witness): the concrete call with content
`"apple apple banana cherry"` and `max_keywords = 2`. -/
theorem c2_keywords_wellformed_witness :
    ((keywordList "apple apple banana cherry".data [] 2).length : Int) ≤ 2 ∧
    (∀ t ∈ keywordList "apple apple banana cherry".data [] 2, 3 < t.length) ∧
    (∀ t ∈ keywordList "apple apple banana cherry".data [] 2, ∀ c ∈ t, pyToLower c = c) ∧
    (keywordList "apple apple banana cherry".data [] 2).Nodup :=
  c2_keywords_wellformed "apple apple banana cherry".data [] 2 (by decide)

/-- C6: the keyword list is ordered by descending frequency over the
concatenated content-and-context token stream, ties keeping the
first-occurrence (dict insertion) order of the frequency keys; in
particular the call with content `"apple apple banana cherry"` and
`max_keywords = 2` deterministically returns the text `"apple, banana"`. -/
theorem c6_keywords_order :
    (∀ (content context : Str) (max_keywords : Int),
      (keywordList content context max_keywords).Pairwise
        (fun a b => freqOf (wordFreq (allWords content context)) b
          ≤ freqOf (wordFreq (allWords content context)) a) ∧
      (∀ x y, List.Sublist [x, y] (keywordList content context max_keywords) →
        freqOf (wordFreq (allWords content context)) x
          = freqOf (wordFreq (allWords content context)) y →
        List.Sublist [x, y] ((wordFreq (allWords content context)).map Prod.fst))) ∧
    keywordList "apple apple banana cherry".data [] 2
      = ["apple".data, "banana".data] ∧
    generate_keywords_tool ⟨some "apple apple banana cherry".data, none, some 2⟩
      = [textBlock "apple, banana".data] := by
  refine ⟨?_, by decide, by decide⟩
  intro content context max_keywords
  set f := freqOf (wordFreq (allWords content context)) with hf
  set keys := (wordFreq (allWords content context)).map Prod.fst with hkeys
  have hsub : List.Sublist (keywordList content context max_keywords)
      (sortByFreqDesc f keys) := by
    simp only [keywordList, pySlice, ← hf, ← hkeys]
    exact List.take_sublist _ _
  have hndkeys : keys.Nodup := wordFreq_keys_nodup _
  have hndsorted : (sortByFreqDesc f keys).Nodup :=
    (sortByFreqDesc_perm f keys).symm.nodup hndkeys
  constructor
  · exact (sortByFreqDesc_sorted f keys).sublist hsub
  · intro x y hxy hfreq
    have hxy' : List.Sublist [x, y] (sortByFreqDesc f keys) := hxy.trans hsub
    have hne : x ≠ y := pair_sublist_ne x y _ hndsorted hxy'
    have hx : x ∈ keys :=
      (sortByFreqDesc_perm f keys).mem_iff.mp (hxy'.subset (by simp))
    have hy : y ∈ keys :=
      (sortByFreqDesc_perm f keys).mem_iff.mp (hxy'.subset (by simp))
    rcases pair_sublist_of_mem x y keys hx hy hne with hgood | hbad
    · exact hgood
    · have := sortByFreqDesc_stable f y x keys hbad hfreq.symm
      exact absurd (pair_sublist_antisymm x y _ hndsorted hxy' this) hne

/-- C6 (witness): with `max_keywords = 3` the tied tokens `"banana"` and
`"cherry"` (frequency 1 each) appear in first-occurrence order, and the tie
clause places them in the key list in that order. -/
theorem c6_keywords_order_witness :
    List.Sublist ["banana".data, "cherry".data]
      ((wordFreq (allWords "apple apple banana cherry".data [])).map Prod.fst) :=
  (c6_keywords_order.1 "apple apple banana cherry".data [] 3).2
    "banana".data "cherry".data (by decide) (by decide)

/-! ## `call_graphql_endpoint_tool` (tools.py lines 7-35) -/

/-- JSON values (the Python objects handled by the json module). -/
inductive PyJson where
  | null
  | bool (b : Bool)
  | num (n : Int)
  | str (s : Str)
  | arr (elems : List PyJson)
  | obj (fields : List (Str × PyJson))

/-- JSON string quoting used by the serializer (escapes quote and
backslash, the escapes the program's data can require). -/
def jsonQuote (s : Str) : Str :=
  '"' :: (s.flatMap fun c => if c = '"' ∨ c = '\\' then ['\\', c] else [c]) ++ ['"']

mutual
/-- Model of `json.dumps` with its default separators `", "` and `": "`. -/
def dumps : PyJson → Str
  | .null => "null".data
  | .bool true => "true".data
  | .bool false => "false".data
  | .num n => (toString n).data
  | .str s => jsonQuote s
  | .arr l => '[' :: List.intercalate ", ".data (dumpsArr l) ++ [']']
  | .obj l => Char.ofNat 123 :: List.intercalate ", ".data (dumpsObj l) ++ [Char.ofNat 125]

def dumpsArr : List PyJson → List Str
  | [] => []
  | x :: xs => dumps x :: dumpsArr xs

def dumpsObj : List (Str × PyJson) → List Str
  | [] => []
  | (k, v) :: xs => (jsonQuote k ++ ": ".data ++ dumps v) :: dumpsObj xs
end

/-- Python truthiness of a JSON value (`None`, `False`, `0`, `""`, `[]` and
the empty object are falsy). -/
def pyTruthy : PyJson → Bool
  | .null => false
  | .bool b => b
  | .num n => n != 0
  | .str s => !s.isEmpty
  | .arr [] => false
  | .arr (_ :: _) => true
  | .obj [] => false
  | .obj (_ :: _) => true

/-- Arguments of `call_graphql_endpoint_tool` (`args.get` on absent keys
gives `None`; the handler's defaults are `""` for the query and the empty
mapping for the variables). -/
structure GraphqlArgs where
  graphql_query : Option Str := none
  graphql_vars : Option PyJson := none
  graphql_endpoint : Option Str := none
  graphql_auth_token : Option Str := none

/-- The two environment variables read by the handler (`os.getenv` gives
`None` when unset). -/
structure GraphqlEnv where
  GRAPHQL_ENDPOINT : Option Str := none
  GRAPHQL_AUTH_TOKEN : Option Str := none

/-- The HTTP POST issued by the handler: URL, JSON body
`{"query": ..., "variables": ...}`, headers, fixed timeout 30. -/
structure HttpRequest where
  url : Str
  query : Str
  vars : PyJson
  headers : List (Str × Str)
  timeout : Int

/-- The response the transport hands back: status code, parsed JSON body
(`response.json()`, consulted only on status 200) and raw text body. -/
structure HttpResponse where
  status_code : Int
  jsonBody : PyJson
  text : Str

/-- Outcome of one handler invocation: either a result returned without any
network call, or exactly one POST whose response is folded into the result
by the given continuation. -/
inductive ToolOutcome where
  | done (result : ToolResult)
  | post (req : HttpRequest) (handler : HttpResponse → ToolResult)

/-- The response handling of `call_graphql_endpoint_tool`: status 200 yields
`json.dumps(response.json())` in a text block, any other status yields the
text block `"Error: <status> - <body>"`. -/
def handleGraphqlResponse (resp : HttpResponse) : ToolResult :=
  if resp.status_code = 200 then [textBlock (dumps resp.jsonBody)]
  else [textBlock ("Error: ".data ++ (toString resp.status_code).data
    ++ " - ".data ++ resp.text)]

/-- `call_graphql_endpoint_tool`: resolves endpoint and token from args with
environment fallback (Python `or`, so empty strings also fall through),
builds the headers, returns the error block when no endpoint is configured,
and otherwise performs the POST. -/
def call_graphql_endpoint_tool (args : GraphqlArgs) (env : GraphqlEnv) : ToolOutcome :=
  let graphql_query := args.graphql_query.getD []
  let graphql_vars := args.graphql_vars.getD (PyJson.obj [])
  let graphql_endpoint := pyOr args.graphql_endpoint env.GRAPHQL_ENDPOINT
  let graphql_auth_token := pyOr args.graphql_auth_token env.GRAPHQL_AUTH_TOKEN
  let headers := ("Content-Type".data, "application/json".data)
    :: (if strTruthy graphql_auth_token then
          [("Authorization".data, "Bearer ".data ++ graphql_auth_token.getD [])]
        else [])
  if strTruthy graphql_endpoint = false then
    .done [textBlock "Error: GraphQL endpoint not provided".data]
  else
    .post ⟨graphql_endpoint.getD [], graphql_query, graphql_vars, headers, 30⟩
      handleGraphqlResponse

/-! ### C4 and C5 -/

/-- C4: whenever an endpoint is configured, the handler performs one POST,
and the response handling satisfies: on status 200 the returned content is
the single text block holding the JSON-serialized response body; on any
other status it is a single error text block that contains both the status
code and the response body. -/
theorem c4_graphql_response (args : GraphqlArgs) (env : GraphqlEnv)
    (h : strTruthy (pyOr args.graphql_endpoint env.GRAPHQL_ENDPOINT) = true) :
    (∃ req, call_graphql_endpoint_tool args env = .post req handleGraphqlResponse) ∧
    (∀ resp : HttpResponse, resp.status_code = 200 →
      handleGraphqlResponse resp = [textBlock (dumps resp.jsonBody)]) ∧
    (∀ resp : HttpResponse, resp.status_code ≠ 200 →
      handleGraphqlResponse resp
        = [textBlock ("Error: ".data ++ (toString resp.status_code).data
            ++ " - ".data ++ resp.text)] ∧
      List.IsInfix (toString resp.status_code).data
        ("Error: ".data ++ (toString resp.status_code).data ++ " - ".data ++ resp.text) ∧
      List.IsInfix resp.text
        ("Error: ".data ++ (toString resp.status_code).data ++ " - ".data ++ resp.text)) := by
  have hpost : call_graphql_endpoint_tool args env
      = .post ⟨(pyOr args.graphql_endpoint env.GRAPHQL_ENDPOINT).getD [],
          args.graphql_query.getD [], args.graphql_vars.getD (PyJson.obj []),
          ("Content-Type".data, "application/json".data)
            :: (if strTruthy (pyOr args.graphql_auth_token env.GRAPHQL_AUTH_TOKEN) then
                  [("Authorization".data,
                    "Bearer ".data ++ (pyOr args.graphql_auth_token env.GRAPHQL_AUTH_TOKEN).getD [])]
                else []), 30⟩ handleGraphqlResponse := by
    simp only [call_graphql_endpoint_tool]
    rw [if_neg (by simp [h])]
  refine ⟨⟨_, hpost⟩, ?_, ?_⟩
  · intro resp h200
    simp only [handleGraphqlResponse]
    rw [if_pos h200]
  · intro resp hne
    refine ⟨?_, ?_, ?_⟩
    · simp only [handleGraphqlResponse]
      rw [if_neg hne]
    · exact ⟨"Error: ".data, " - ".data ++ resp.text, by simp⟩
    · exact ⟨"Error: ".data ++ (toString resp.status_code).data ++ " - ".data, [], by simp⟩

/-- C4 (witness): a configured endpoint with the spec's two sample
responses: HTTP 200 with body a JSON object, and HTTP 500 with body
`"boom"`. -/
theorem c4_graphql_response_witness :
    (∃ req, call_graphql_endpoint_tool ⟨none, none, some "http://e".data, none⟩ ⟨none, none⟩
      = .post req handleGraphqlResponse) ∧
    handleGraphqlResponse ⟨200, .obj [("data".data, .obj [("x".data, .num 1)])], []⟩
      = [textBlock "\x7b\"data\": \x7b\"x\": 1\x7d\x7d".data] ∧
    List.IsInfix "500".data
      ((handleGraphqlResponse ⟨500, .null, "boom".data⟩).headD (textBlock [])).text ∧
    List.IsInfix "boom".data
      ((handleGraphqlResponse ⟨500, .null, "boom".data⟩).headD (textBlock [])).text := by
  have h := c4_graphql_response ⟨none, none, some "http://e".data, none⟩ ⟨none, none⟩ (by decide)
  refine ⟨h.1, ?_, ?_, ?_⟩
  · have := h.2.1 ⟨200, .obj [("data".data, .obj [("x".data, .num 1)])], []⟩ rfl
    rw [this]
    decide
  · have := (h.2.2 ⟨500, .null, "boom".data⟩ (by decide)).2.1
    simpa using this
  · have := (h.2.2 ⟨500, .null, "boom".data⟩ (by decide)).2.2
    simpa using this

/-- C5: when the args carry no endpoint and the environment provides none
either, the handler returns exactly one text block reading
`"Error: GraphQL endpoint not provided"`; the outcome is `done`, i.e. no
network call is performed, and the handler is total (never raises). -/
theorem c5_graphql_no_endpoint (args : GraphqlArgs) (env : GraphqlEnv)
    (ha : args.graphql_endpoint = none) (he : env.GRAPHQL_ENDPOINT = none) :
    call_graphql_endpoint_tool args env
      = .done [textBlock "Error: GraphQL endpoint not provided".data] := by
  simp only [call_graphql_endpoint_tool]
  rw [if_pos]
  simp [pyOr, ha, he, strTruthy]

/-- C5 (witness): empty args and empty environment. -/
theorem c5_graphql_no_endpoint_witness :
    call_graphql_endpoint_tool ⟨none, none, none, none⟩ ⟨none, none⟩
      = .done [textBlock "Error: GraphQL endpoint not provided".data] :=
  c5_graphql_no_endpoint ⟨none, none, none, none⟩ ⟨none, none⟩ rfl rfl

/-! ## Messages and the response aggregators (execute.py / query.py)

The SDK delivers duck-typed messages; following the data model they are a
tagged union: assistant/user messages carry content blocks, the result
message carries an optional final string, system messages carry neither a
`content`, a `text` nor a `result` attribute and are skipped by every loop.
Content blocks are text blocks (attribute `text`), tool-result blocks
(attribute `tool_use_id`) and tool-use blocks (attribute `name`). -/

inductive Block where
  | text (t : Str)
  | toolResult (tool_use_id : Str) (content : PyJson)
  | toolUse (name : Str) (input : PyJson)

inductive Message where
  | withContent (content : List Block)
  | resultMsg (result : Option Str)
  | system (subtype : Str)

/-- The accumulating aggregator of `query_claude_general` (execute.py lines
34-42): every `text` attribute of every content block is appended to the
running buffer.  The result message has no `text` attribute, so the loop's
`elif` branch never fires and result messages contribute nothing. -/
def aggregateGeneral (msgs : List Message) : Str :=
  msgs.foldl (fun result m =>
    match m with
    | .withContent blocks =>
      blocks.foldl (fun r b =>
        match b with
        | .text t => r ++ t
        | _ => r) result
    | .resultMsg _ => result
    | .system _ => result) []

/-- The final-result aggregator of `query_claude_general_local` (execute.py
lines 44-95, query.py lines 104-157): text and tool blocks are only logged;
each truthy `message.result` replaces `final_result`; the loop's value is
`final_result or "No result generated"`. -/
def aggregateLocal (msgs : List Message) : Str :=
  let final_result := msgs.foldl (fun fr m =>
    match m with
    | .withContent _ => fr
    | .resultMsg r =>
      match r with
      | some s => if s.isEmpty then fr else s
      | none => fr
    | .system _ => fr) []
  if final_result.isEmpty then "No result generated".data else final_result

/-- The text fields of the content blocks of one message. -/
def blockTexts (bs : List Block) : List Str :=
  bs.filterMap fun b =>
    match b with
    | .text t => some t
    | _ => none

/-- All text fields of the message sequence, in order. -/
def allTexts (msgs : List Message) : List Str :=
  (msgs.map fun m =>
    match m with
    | .withContent bs => blockTexts bs
    | _ => []).flatten

/-- In-order concatenation of all text fields of the content blocks. -/
def concatTexts (msgs : List Message) : Str := (allTexts msgs).flatten

/-- The last non-empty final-result string of the sequence, when any. -/
def lastNonEmptyResult : List Message → Option Str
  | [] => none
  | m :: rest =>
    match lastNonEmptyResult rest with
    | some s => some s
    | none =>
      match m with
      | .resultMsg (some s) => if s.isEmpty then none else some s
      | _ => none

/-! ### Aggregator lemmas -/

theorem foldl_blocks_append (bs : List Block) :
    ∀ init : Str,
      bs.foldl (fun r b =>
        match b with
        | .text t => r ++ t
        | _ => r) init = init ++ (blockTexts bs).flatten := by
  induction bs with
  | nil => intro init; simp [blockTexts]
  | cons b bs ih =>
    intro init
    cases b with
    | text t => simp [blockTexts, List.foldl_cons, ih, List.filterMap_cons]
    | toolResult u c => simpa [blockTexts, List.filterMap_cons] using ih init
    | toolUse n i => simpa [blockTexts, List.filterMap_cons] using ih init

theorem foldl_general_append (msgs : List Message) :
    ∀ init : Str,
      msgs.foldl (fun result m =>
        match m with
        | .withContent blocks =>
          blocks.foldl (fun r b =>
            match b with
            | .text t => r ++ t
            | _ => r) result
        | .resultMsg _ => result
        | .system _ => result) init = init ++ concatTexts msgs := by
  induction msgs with
  | nil => intro init; simp [concatTexts, allTexts]
  | cons m msgs ih =>
    intro init
    cases m with
    | withContent bs =>
      simp only [List.foldl_cons]
      rw [ih, foldl_blocks_append bs init]
      simp [concatTexts, allTexts, List.append_assoc]
    | resultMsg r =>
      simp only [List.foldl_cons]
      rw [ih]
      simp [concatTexts, allTexts]
    | system s =>
      simp only [List.foldl_cons]
      rw [ih]
      simp [concatTexts, allTexts]

/-- The accumulating aggregator is exactly the in-order concatenation of the
text fields. -/
theorem aggregateGeneral_eq_concatTexts (msgs : List Message) :
    aggregateGeneral msgs = concatTexts msgs := by
  simpa using foldl_general_append msgs []

theorem lastNonEmptyResult_ne_nil (msgs : List Message) (s : Str)
    (h : lastNonEmptyResult msgs = some s) : ¬ s.isEmpty := by
  induction msgs with
  | nil => simp [lastNonEmptyResult] at h
  | cons m rest ih =>
    simp only [lastNonEmptyResult] at h
    cases hr : lastNonEmptyResult rest with
    | some s' => rw [hr] at h; exact ih (hr.trans h)
    | none =>
      rw [hr] at h
      cases m with
      | withContent bs => simp at h
      | system st => simp at h
      | resultMsg r =>
        cases r with
        | none => simp at h
        | some s' =>
          simp only at h
          by_cases he : s'.isEmpty
          · rw [if_pos he] at h; exact absurd h (by simp)
          · rw [if_neg he] at h
            obtain rfl : s' = s := by simpa using h
            exact he

theorem foldl_local_eq (msgs : List Message) :
    ∀ init : Str,
      msgs.foldl (fun fr m =>
        match m with
        | .withContent _ => fr
        | .resultMsg r =>
          match r with
          | some s => if s.isEmpty then fr else s
          | none => fr
        | .system _ => fr) init = (lastNonEmptyResult msgs).getD init := by
  induction msgs with
  | nil => intro init; simp [lastNonEmptyResult]
  | cons m rest ih =>
    intro init
    simp only [List.foldl_cons, ih, lastNonEmptyResult]
    cases hr : lastNonEmptyResult rest with
    | some s => simp
    | none =>
      cases m with
      | withContent bs => simp
      | system st => simp
      | resultMsg r =>
        cases r with
        | none => simp
        | some s =>
          by_cases he : s.isEmpty
          · simp [he]
          · simp [he]

/-- The final-result aggregator returns the last non-empty result string,
with the literal fallback when none appears. -/
theorem aggregateLocal_eq_lastResult (msgs : List Message) :
    aggregateLocal msgs = (lastNonEmptyResult msgs).getD "No result generated".data := by
  simp only [aggregateLocal, foldl_local_eq msgs []]
  cases hr : lastNonEmptyResult msgs with
  | none => simp
  | some s =>
    have := lastNonEmptyResult_ne_nil msgs s hr
    simp [this]

/-! ## Query facades (execute.py lines 21-95, 133-134; query.py lines 104-160)

The scoped session opened by the `async with` block is modelled by an event
trace: the with-statement's semantics guarantee that after `openSession` the
matching `closeSession` is emitted on every exit path, whether the body
returns normally or a failure propagates out of the query or the
message-stream loop.  The runtime is modelled as the finite message sequence
it streams plus an optional failure it raises during the interaction;
`json.loads` is a parse-function parameter, since its grammar lives outside
this repository. -/

inductive SessionEv where
  | openSession
  | sendQuery (prompt : Str)
  | closeSession
deriving DecidableEq

structure RuntimeStream where
  msgs : List Message
  failure : Option Str

/-- The enhanced prompt of `query_claude_general`: the context mapping is
embedded as a labeled JSON block when truthy (the model serializes it
compactly; the source's `indent=2` only changes whitespace). -/
def buildPromptGeneral (prompt : Str) (context_data : PyJson) : Str :=
  if pyTruthy context_data then
    prompt ++ "\n\nContext data: ".data ++ dumps context_data
      ++ "\n\nPlease use the available tools (generate_keywords, generate_description) if they would help answer this query.".data
  else prompt

/-- `query_claude_general`: parses the context when non-empty (a parse
failure propagates before any session exists, hence the empty trace), builds
the enhanced prompt, then opens the scoped session, submits the query and
aggregates the stream; the session close is emitted on both the normal and
the failing path. -/
def query_claude_general (parse : Str → Except Str PyJson)
    (prompt context_json : Str) (stream : RuntimeStream) :
    Except Str Str × List SessionEv :=
  match (if context_json.isEmpty then Except.ok (PyJson.obj []) else parse context_json) with
  | .error e => (.error e, [])
  | .ok context_data =>
    let enhanced_prompt := buildPromptGeneral prompt context_data
    match stream.failure with
    | some e =>
      (.error e, [.openSession, .sendQuery enhanced_prompt, .closeSession])
    | none =>
      (.ok (aggregateGeneral stream.msgs),
        [.openSession, .sendQuery enhanced_prompt, .closeSession])

/-- The enhanced prompt of `query_claude_general_local` (the execute.py
variant; whitespace of the triple-quoted template is transcribed, the JSON
block again serialized compactly). -/
def buildPromptLocal (prompt : Str) (context_data : PyJson) : Str :=
  "\n    Use the available tools to answer the following query:\n\n    User query: ".data
    ++ prompt
    ++ "\n\n    Context data: ".data
    ++ (if pyTruthy context_data then dumps context_data else "None".data)
    ++ "\n\n    Please use the appropriate tools to help answer this query. For example:\n    - Before using the `call_graphql_endpoint` tool to query or update data, use it to discover the schema first.\n\n    Respond with both tool results and your analysis.".data

/-- `query_claude_general_local`: same session discipline as the general
variant, but the stream is folded by the final-result aggregator. -/
def query_claude_general_local (parse : Str → Except Str PyJson)
    (prompt context_json : Str) (stream : RuntimeStream) :
    Except Str Str × List SessionEv :=
  match (if context_json.isEmpty then Except.ok (PyJson.obj []) else parse context_json) with
  | .error e => (.error e, [])
  | .ok context_data =>
    let enhanced_prompt := buildPromptLocal prompt context_data
    match stream.failure with
    | some e =>
      (.error e, [.openSession, .sendQuery enhanced_prompt, .closeSession])
    | none =>
      (.ok (aggregateLocal stream.msgs),
        [.openSession, .sendQuery enhanced_prompt, .closeSession])

/-- `query_claude_sync`: `asyncio.run` drives the coroutine to completion,
passing its value and any raised failure through unchanged. -/
def query_claude_sync (parse : Str → Except Str PyJson)
    (prompt context_json : Str) (stream : RuntimeStream) :
    Except Str Str × List SessionEv :=
  query_claude_general parse prompt context_json stream

/-! ### C3 and C7 -/

/-- C3 (counterexample): a sequence with one text-bearing message and no
final-result message.  The claim predicts the accumulated concatenation
`"Hello"`; the final-result aggregator (the variant that produced the
claim's fallback clause) discards the accumulated text and returns the
fallback string instead, as does the facade built on it. -/
theorem c3_counterexample :
    lastNonEmptyResult [Message.withContent [Block.text "Hello".data]] = none ∧
    concatTexts [Message.withContent [Block.text "Hello".data]] = "Hello".data ∧
    aggregateLocal [Message.withContent [Block.text "Hello".data]]
      = "No result generated".data ∧
    aggregateLocal [Message.withContent [Block.text "Hello".data]] ≠ "Hello".data ∧
    (query_claude_general_local (fun _ => Except.ok PyJson.null) [] []
      ⟨[Message.withContent [Block.text "Hello".data]], none⟩).1
      = Except.ok "No result generated".data := by
  refine ⟨rfl, by decide, by decide, by decide, ?_⟩
  rfl

/-- C3 (amended): the two aggregator variants behave differently, and
neither matches the claim's single policy.  `query_claude_general`'s
aggregation returns the in-order concatenation of the text fields of the
content blocks, ignoring final-result messages entirely (no fallback);
`query_claude_general_local`'s aggregation returns the last non-empty
final-result string when one appears in the sequence, and the literal
fallback string `"No result generated"` otherwise — accumulated text is
never returned by that variant. -/
theorem c3_aggregator_result (msgs : List Message) :
    aggregateGeneral msgs = concatTexts msgs ∧
    aggregateLocal msgs = (lastNonEmptyResult msgs).getD "No result generated".data :=
  ⟨aggregateGeneral_eq_concatTexts msgs, aggregateLocal_eq_lastResult msgs⟩

/-- C7: aggregating the two text-bearing messages `"Hello "` and `"world"`
with no final-result message yields `"Hello world"`; in general, the
accumulating aggregator is the in-order concatenation of the text fields of
the messages' content blocks. -/
theorem c7_aggregator_concat :
    aggregateGeneral [Message.withContent [Block.text "Hello ".data],
      Message.withContent [Block.text "world".data]] = "Hello world".data ∧
    (∀ msgs : List Message, aggregateGeneral msgs = concatTexts msgs) := by
  exact ⟨by decide, aggregateGeneral_eq_concatTexts⟩

/-! ### C8 and C9 -/

/-- C8: for every non-empty context string on which the context parse fails,
both the asynchronous facade and its synchronous adapter propagate the parse
failure with an empty session trace — the failure is raised before any
session is opened.  For the empty context string no parse is attempted (the
outcome does not depend on the parse function at all) and a session is
always opened, so no parse failure can occur. -/
theorem c8_malformed_context (parse : Str → Except Str PyJson)
    (prompt context_json : Str) (stream : RuntimeStream) :
    (∀ e : Str, context_json ≠ [] → parse context_json = .error e →
      query_claude_general parse prompt context_json stream = (.error e, []) ∧
      query_claude_sync parse prompt context_json stream = (.error e, [])) ∧
    (context_json = [] →
      (∀ parse2, query_claude_general parse2 prompt context_json stream
        = query_claude_general parse prompt context_json stream) ∧
      SessionEv.openSession ∈ (query_claude_general parse prompt context_json stream).2) := by
  constructor
  · intro e hne hp
    have hempty : context_json.isEmpty = false := by
      cases context_json with
      | nil => exact absurd rfl hne
      | cons c t => rfl
    have : (if context_json.isEmpty then Except.ok (PyJson.obj []) else parse context_json)
        = Except.error e := by rw [hempty]; simpa using hp
    constructor
    · simp only [query_claude_general, this]
    · simp only [query_claude_sync, query_claude_general, this]
  · intro he
    subst he
    constructor
    · intro parse2; rfl
    · simp only [query_claude_general, List.isEmpty_nil]
      cases stream.failure with
      | some e => simp
      | none => simp

/-- C8 (witness): a failing parse on the non-empty string `"notjson"`, and
the empty context with the same always-failing parse function. -/
theorem c8_malformed_context_witness :
    (query_claude_general (fun _ => Except.error "bad".data) [] "notjson".data ⟨[], none⟩
      = (.error "bad".data, []) ∧
     query_claude_sync (fun _ => Except.error "bad".data) [] "notjson".data ⟨[], none⟩
      = (.error "bad".data, [])) ∧
    SessionEv.openSession
      ∈ (query_claude_general (fun _ => Except.error "bad".data) [] [] ⟨[], none⟩).2 :=
  ⟨(c8_malformed_context (fun _ => Except.error "bad".data) [] "notjson".data
      ⟨[], none⟩).1 "bad".data (by decide) rfl,
   ((c8_malformed_context (fun _ => Except.error "bad".data) [] [] ⟨[], none⟩).2 rfl).2⟩

/-- C9: for both asynchronous facades, every exit path that opened a session
also closes it: whenever `openSession` is in the trace, `closeSession` is in
the trace — including the path where the runtime raises during the query or
the message-stream loop (the failing branch of the stream). -/
theorem c9_session_released (parse : Str → Except Str PyJson)
    (prompt context_json : Str) (stream : RuntimeStream) :
    (SessionEv.openSession ∈ (query_claude_general parse prompt context_json stream).2 →
      SessionEv.closeSession ∈ (query_claude_general parse prompt context_json stream).2) ∧
    (SessionEv.openSession ∈ (query_claude_general_local parse prompt context_json stream).2 →
      SessionEv.closeSession ∈ (query_claude_general_local parse prompt context_json stream).2) := by
  constructor
  · simp only [query_claude_general]
    cases hp : (if context_json.isEmpty then Except.ok (PyJson.obj []) else parse context_json) with
    | error e => simp
    | ok ctx =>
      cases stream.failure with
      | some e => simp
      | none => simp
  · simp only [query_claude_general_local]
    cases hp : (if context_json.isEmpty then Except.ok (PyJson.obj []) else parse context_json) with
    | error e => simp
    | ok ctx =>
      cases stream.failure with
      | some e => simp
      | none => simp

/-- C9 (witness): a run whose stream raises mid-loop still closes the
session it opened. -/
theorem c9_session_released_witness :
    SessionEv.closeSession
      ∈ (query_claude_general (fun _ => Except.ok PyJson.null) [] []
          ⟨[], some "runtime failure".data⟩).2 ∧
    SessionEv.closeSession
      ∈ (query_claude_general_local (fun _ => Except.ok PyJson.null) [] []
          ⟨[], some "runtime failure".data⟩).2 :=
  ⟨(c9_session_released (fun _ => Except.ok PyJson.null) [] []
      ⟨[], some "runtime failure".data⟩).1 (by decide),
   (c9_session_released (fun _ => Except.ok PyJson.null) [] []
      ⟨[], some "runtime failure".data⟩).2 (by decide)⟩
